import Mathlib

/-!
Shallow embedding of the Bybit gateway (`vnpy_bybit/bybit_gateway.py`) and
proofs about its order-status flow, market-data handlers, websocket frame
dispatch, order submission, kline pagination, request signing and payload
serialization.  Each definition is translated from the corresponding Python
function; the theorems at the end of the file settle the spec claims.
-/

/-! ### Vendor status and type dictionaries (module-level constants) -/

/-- Order status values of the vendor-neutral trading object model
(the `Status` enum used by `OrderData`). -/
inductive VtStatus where
  | SUBMITTING
  | NOTTRADED
  | PARTTRADED
  | ALLTRADED
  | CANCELLED
  | REJECTED
deriving DecidableEq, Repr

/-- Order status map `STATUS_BYBIT2VT` from the source. -/
def STATUS_BYBIT2VT : List (String × VtStatus) :=
  [("Created", .NOTTRADED),
   ("New", .NOTTRADED),
   ("PartiallyFilled", .PARTTRADED),
   ("Filled", .ALLTRADED),
   ("Cancelled", .CANCELLED),
   ("Rejected", .REJECTED)]

/-- Order types of the vendor-neutral model (the `OrderType` enum). -/
inductive VtOrderType where
  | LIMIT
  | MARKET
  | STOP
  | FAK
  | FOK
deriving DecidableEq, Repr

/-- Order type map `ORDER_TYPE_VT2BYBIT` from the source: only LIMIT and
MARKET are mapped. -/
def ORDER_TYPE_VT2BYBIT : List (VtOrderType × String) :=
  [(.LIMIT, "Limit"), (.MARKET, "Market")]

/-- Tick field map `TICK_FIELD_BYBIT2VT` from the source. -/
def TICK_FIELD_BYBIT2VT : List (String × String) :=
  [("lastPrice", "last_price"),
   ("highPrice24h", "high_price"),
   ("lowPrice24h", "low_price"),
   ("volume24h", "volume"),
   ("turnover24h", "turnover"),
   ("openInterest", "open_interest")]

/-! ### Order lifecycle (C1): REST send-order callbacks and the private
websocket order push.

`BybitRestApi.on_send_order` emits a REJECTED order when the response carries
a nonzero `retCode`; `on_send_order_failed` and `on_send_order_error` emit a
REJECTED order unconditionally; `BybitPrivateWebsocketApi.on_order`
translates the pushed `orderStatus` through `STATUS_BYBIT2VT` and emits the
resulting order via `gateway.on_order` with no further checks.  We model the
stream of statuses emitted for one tracked order. -/

/-- Events that can reach the gateway for a single tracked order. -/
inductive OrderEvent where
  /-- `on_send_order`: REST callback with the response `retCode`. -/
  | restSendCallback (retCode : Int)
  /-- `on_send_order_failed`: HTTP-level failure of the send request. -/
  | restSendFailed
  /-- `on_send_order_error`: transport exception during the send request. -/
  | restSendError
  /-- `BybitPrivateWebsocketApi.on_order`: one data item of an order push,
  carrying the vendor `orderStatus` string. -/
  | wsOrderPush (orderStatus : String)
deriving DecidableEq, Repr

/-- Statuses emitted by `BybitRestApi.on_send_order`: a REJECTED order is
pushed exactly when `retCode` is nonzero. -/
def rest_on_send_order (retCode : Int) : List VtStatus :=
  if retCode ≠ 0 then [VtStatus.REJECTED] else []

/-- Status emitted by `BybitPrivateWebsocketApi.on_order` for one data item:
`STATUS_BYBIT2VT[d["orderStatus"]]` (a missing key would raise, modelled as
`none`). -/
def private_on_order_status (orderStatus : String) : Option VtStatus :=
  STATUS_BYBIT2VT.lookup orderStatus

/-- Statuses emitted by one event. -/
def orderEventEmits : OrderEvent → List VtStatus
  | .restSendCallback retCode => rest_on_send_order retCode
  | .restSendFailed => [VtStatus.REJECTED]
  | .restSendError => [VtStatus.REJECTED]
  | .wsOrderPush st => (private_on_order_status st).toList

/-- The full stream of statuses emitted for one order by a sequence of
events, in arrival order.  The gateway keeps no per-order state: each event
is handled independently. -/
def emittedStatuses (events : List OrderEvent) : List VtStatus :=
  events.flatMap orderEventEmits

/-! ### Ticker aggregator (C3): `BybitPublicWebsocketApi.on_ticker`.

The handler intersects the keys of the pushed `data` dict with the keys of
`TICK_FIELD_BYBIT2VT` and overwrites exactly the mapped tick attributes,
then emits a copy of the tick.  Values are modelled as rationals (the
result of `float(...)` on the pushed decimal strings). -/

/-- The summary fields of a `TickData` object touched by `on_ticker`. -/
structure TickFields where
  last_price : ℚ
  high_price : ℚ
  low_price : ℚ
  volume : ℚ
  turnover : ℚ
  open_interest : ℚ
deriving DecidableEq, Repr

/-- The `setattr(tick, name, value)` step for the attribute names produced by
`TICK_FIELD_BYBIT2VT`; any other name leaves the tick unchanged. -/
def setTickField (t : TickFields) (name : String) (v : ℚ) : TickFields :=
  if name = "last_price" then { t with last_price := v }
  else if name = "high_price" then { t with high_price := v }
  else if name = "low_price" then { t with low_price := v }
  else if name = "volume" then { t with volume := v }
  else if name = "turnover" then { t with turnover := v }
  else if name = "open_interest" then { t with open_interest := v }
  else t

/-- Read a tick attribute by its vendor-neutral name (used to state the
update theorem uniformly over fields). -/
def getTickField (t : TickFields) (name : String) : ℚ :=
  if name = "last_price" then t.last_price
  else if name = "high_price" then t.high_price
  else if name = "low_price" then t.low_price
  else if name = "volume" then t.volume
  else if name = "turnover" then t.turnover
  else if name = "open_interest" then t.open_interest
  else 0

/-- `on_ticker`: for every pushed field that appears in
`TICK_FIELD_BYBIT2VT`, set the mapped attribute to the parsed value; fields
outside the map are skipped.  The fully updated tick is the record emitted
through `gateway.on_tick(copy(tick))`. -/
def on_ticker (tick : TickFields) (data : List (String × ℚ)) : TickFields :=
  data.foldl
    (fun t kv =>
      match TICK_FIELD_BYBIT2VT.lookup kv.1 with
      | some name => setTickField t name kv.2
      | none => t)
    tick

/-! ### Depth handler (C2): `BybitPublicWebsocketApi.on_depth`.

The handler copies the first `min(5, len)` levels of the frame's `b` and `a`
arrays verbatim into the tick's five bid/ask slots (price and volume), then
emits a copy of the tick.  It keeps no order-book state: `symbol_bids` and
`symbol_asks` are declared in `__init__` but never used. -/

/-- One depth frame's payload: the `b` and `a` arrays of `[price, size]`
pairs (already parsed from their decimal strings). -/
structure DepthFrame where
  b : List (ℚ × ℚ)
  a : List (ℚ × ℚ)
deriving DecidableEq, Repr

/-- The five bid and five ask `(price, volume)` slots of a `TickData`
object.  A fresh tick has all slots `(0, 0)`. -/
structure TickBook where
  bids : List (ℚ × ℚ)
  asks : List (ℚ × ℚ)
deriving DecidableEq, Repr

/-- The tick object created on subscribe: all book slots zero. -/
def initialTickBook : TickBook :=
  { bids := List.replicate 5 (0, 0), asks := List.replicate 5 (0, 0) }

/-- The `for i in range(min(5, len(data))): setattr(tick, ...)` loop: slot
`i` (starting at `idx`) becomes level `i` of the frame when
`i < min 5 (len data)`, otherwise it keeps its previous value. -/
def applyLevels (data : List (ℚ × ℚ)) : ℕ → List (ℚ × ℚ) → List (ℚ × ℚ)
  | _, [] => []
  | i, old :: rest =>
    (if i < min 5 data.length then data.getD i old else old)
      :: applyLevels data (i + 1) rest

/-- `on_depth`: overwrite the first `min(5, len)` bid and ask slots from the
frame and emit the resulting tick. -/
def on_depth (tick : TickBook) (frame : DepthFrame) : TickBook :=
  { bids := applyLevels frame.b 0 tick.bids
    asks := applyLevels frame.a 0 tick.asks }

/-- The ticks emitted by a sequence of depth frames applied to a tick. -/
def depthEmitted (tick : TickBook) (frames : List DepthFrame) : List TickBook :=
  match frames with
  | [] => []
  | f :: rest =>
    let t := on_depth tick f
    t :: depthEmitted t rest

/-- The property claimed for the emitted top-of-book: no slot holds a price
level with nonpositive size, bids strictly descending, asks strictly
ascending (over the slots that hold a level, i.e. whose price is nonzero). -/
def WellFormedBook (t : TickBook) : Prop :=
  (∀ lvl ∈ t.bids ++ t.asks, lvl.1 ≠ 0 → 0 < lvl.2) ∧
  List.Pairwise (fun x y : ℚ × ℚ => x.1 ≠ 0 → y.1 ≠ 0 → y.1 < x.1) t.bids ∧
  List.Pairwise (fun x y : ℚ × ℚ => x.1 ≠ 0 → y.1 ≠ 0 → x.1 < y.1) t.asks

instance (t : TickBook) : Decidable (WellFormedBook t) := by
  unfold WellFormedBook
  infer_instance

/-! ### Frame dispatch (C4): `on_packet` of the public and private
websocket APIs.

Public: `topic = packet.get("topic", "")`; an empty or missing topic returns
silently; otherwise `self.callbacks[topic]` is read — a `KeyError` escapes
the handler when the topic was never registered.  Private: a packet without
a `"topic"` key reads `packet["op"]` and only handles `"auth"`; otherwise
`self.callbacks[channel]` is read, again raising `KeyError` when
unregistered. -/

/-- Result of dispatching one inbound frame. -/
inductive DispatchResult where
  /-- The handler returned without calling any callback. -/
  | dropped
  /-- The registered callback for `topic` was invoked. -/
  | handled (topic : String)
  /-- A `KeyError` for `key` escaped the handler. -/
  | keyError (key : String)
deriving DecidableEq, Repr

/-- An inbound public frame: the optional `"topic"` value. -/
structure PublicPacket where
  topic : Option String
deriving DecidableEq, Repr

/-- An inbound private frame: the optional `"topic"` and `"op"` values. -/
structure PrivatePacket where
  topic : Option String
  op : Option String
deriving DecidableEq, Repr

/-- `BybitPublicWebsocketApi.on_packet` (the registered topics are the keys
of `self.callbacks`). -/
def public_on_packet (callbacks : List String) (p : PublicPacket) : DispatchResult :=
  let topic := p.topic.getD ""
  if topic = "" then .dropped
  else if topic ∈ callbacks then .handled topic
  else .keyError topic

/-- `BybitPrivateWebsocketApi.on_packet`.  `handled "auth"` stands for the
`on_login` call. -/
def private_on_packet (callbacks : List String) (p : PrivatePacket) : DispatchResult :=
  match p.topic with
  | none =>
    match p.op with
    | none => .keyError "op"
    | some op => if op = "auth" then .handled "auth" else .dropped
  | some channel =>
    if channel ∈ callbacks then .handled channel
    else .keyError channel

/-- Dispatching a whole sequence of public frames: the callback table is
never modified by dispatch, so each frame is dispatched independently. -/
def public_process (callbacks : List String) (frames : List PublicPacket) :
    List DispatchResult :=
  frames.map (public_on_packet callbacks)

/-! ### Order submission (C5): `BybitRestApi.send_order`.

The method first emits the submitting acknowledgement
(`gateway.on_order(order)` with the freshly created order), then builds the
request dict.  `ORDER_TYPE_VT2BYBIT[req.type]` raises `KeyError` for an
unsupported order type; the category is
`symbol_category_map.get(req.symbol, "")`, so an unmapped symbol yields
category `""` and the request is still transmitted. -/

/-- Offset intent of the vendor-neutral order request. -/
inductive VtOffset where
  | NONE
  | OPEN
  | CLOSE
deriving DecidableEq, Repr

/-- The fields of an `OrderRequest` used by `send_order`. -/
structure OrderReq where
  symbol : String
  otype : VtOrderType
  volume : ℚ
  price : ℚ
  offset : VtOffset
deriving DecidableEq, Repr

/-- What `send_order` does after the submitting acknowledgement. -/
inductive SendOutcome where
  /-- `KeyError` escaped before `add_request` (no network call). -/
  | raisedKeyError
  /-- `add_request("POST", "/v5/order/create", ...)` was reached with the
  given `category` field; the network call is made. -/
  | requested (category : String)
deriving DecidableEq, Repr

/-- `send_order`: returns the statuses emitted for the order so far and the
outcome.  The submitting acknowledgement is always emitted first. -/
def send_order (symbol_category_map : List (String × String)) (req : OrderReq) :
    List VtStatus × SendOutcome :=
  let emitted := [VtStatus.SUBMITTING]
  match ORDER_TYPE_VT2BYBIT.lookup req.otype with
  | none => (emitted, .raisedKeyError)
  | some _ => (emitted, .requested ((symbol_category_map.lookup req.symbol).getD ""))

/-! ### Public subscription paths (C9, C10): `BybitPublicWebsocketApi`.

`subscribe` returns immediately when the symbol is already in
`self.subscribed`; otherwise it stores the request, creates the tick object,
resolves the category (returning when unknown) and, when that category's
client is connected, registers and sends the `tickers.{symbol}` and
`orderbook.{depth}.{symbol}` topics with depth 100 (option) / 200 (other).
`on_connected` replays all subscriptions of the category with depth 25
(option) / 50 (other). -/

/-- State of the public websocket API that `subscribe` / `on_connected`
touch.  `ticks` stores the creation tag of each symbol's tick object (the
`datetime.now()` recorded when the tick was created); `sentPackets` is the
sequence of topics sent over the wire via `send_packet`. -/
structure PublicWsState where
  callbacks : List String
  ticks : List (String × ℕ)
  subscribed : List String
  sentPackets : List String
deriving DecidableEq, Repr

/-- Register a callback key in the `callbacks` dict (keys are unique). -/
def addCallbackKey (l : List String) (k : String) : List String :=
  if k ∈ l then l else l ++ [k]

/-- `subscribe_topic`: record the callback and send the subscribe packet. -/
def subscribe_topic (st : PublicWsState) (topic : String) : PublicWsState :=
  { st with
    callbacks := addCallbackKey st.callbacks topic
    sentPackets := st.sentPackets ++ [topic] }

/-- Depth used on the initial subscribe path. -/
def subscribeDepth (category : String) : ℕ :=
  if category = "option" then 100 else 200

/-- Depth used on the reconnect-replay path (`on_connected`). -/
def onConnectedDepth (category : String) : ℕ :=
  if category = "option" then 25 else 50

/-- The ticker topic for a symbol. -/
def tickerTopic (symbol : String) : String :=
  "tickers." ++ symbol

/-- The orderbook topic for a depth and symbol. -/
def orderbookTopic (depth : ℕ) (symbol : String) : String :=
  "orderbook." ++ toString depth ++ "." ++ symbol

/-- `BybitPublicWebsocketApi.subscribe`.  `connectedCategories` is the set
of categories whose client object exists and has `is_connected = True`;
`now` is the tick creation timestamp. -/
def ws_subscribe (symbol_category_map : List (String × String))
    (connectedCategories : List String) (st : PublicWsState)
    (symbol : String) (now : ℕ) : PublicWsState :=
  if symbol ∈ st.subscribed then st
  else
    let st1 : PublicWsState :=
      { st with
        subscribed := st.subscribed ++ [symbol]
        ticks := st.ticks ++ [(symbol, now)] }
    match symbol_category_map.lookup symbol with
    | none => st1
    | some category =>
      if category ∈ connectedCategories then
        subscribe_topic
          (subscribe_topic st1 (tickerTopic symbol))
          (orderbookTopic (subscribeDepth category) symbol)
      else st1

/-- `BybitPublicWebsocketApi.on_connected`: replay every stored subscription
whose symbol maps to this category, with the replay depth. -/
def ws_on_connected (symbol_category_map : List (String × String))
    (st : PublicWsState) (category : String) : PublicWsState :=
  st.subscribed.foldl
    (fun acc symbol =>
      if symbol_category_map.lookup symbol = some category then
        subscribe_topic
          (subscribe_topic acc (tickerTopic symbol))
          (orderbookTopic (onConnectedDepth category) symbol)
      else acc)
    st

/-! ### Kline pagination (C6): `BybitRestApi.query_history`.

The loop requests pages of `count = 200` bars from the requested start time,
appends each page to `history`, stops on an HTTP error, a nonzero
`ret_code`, an empty `result` or a page shorter than `count`, and otherwise
advances the start cursor to the last bar's time plus one interval width.
Bar times are natural numbers (epoch seconds of the bar's `open_time`);
interval widths are the second counts of `TIMEDELTA_MAP`. -/

/-- Vendor-neutral bar intervals supported by the gateway. -/
inductive VtInterval where
  | MINUTE
  | HOUR
  | DAILY
  | WEEKLY
deriving DecidableEq, Repr

/-- `TIMEDELTA_MAP` from the source, in seconds. -/
def TIMEDELTA_MAP : VtInterval → ℕ
  | .MINUTE => 60
  | .HOUR => 3600
  | .DAILY => 86400
  | .WEEKLY => 604800

/-- Modelled from the spec: `generate_datetime_2` is called by
`query_history` on each bar's `open_time` but is missing from the source
tree; the spec (§6, §8) describes bars carrying the page's open time, so it
is modelled as the order-preserving conversion of the epoch open time to
the bar timestamp (the identity on epoch seconds). -/
def generate_datetime_2 (open_time : ℕ) : ℕ :=
  open_time

/-- One response of the kline endpoint, as `query_history` distinguishes
them: an HTTP error status, a nonzero `ret_code`, or a `result` list of
bars (given by their open times). -/
inductive KlinePage where
  | httpError
  | apiError
  | result (bars : List ℕ)
deriving DecidableEq, Repr

/-- `query_history`: `server` maps a requested start time to the response
page; `fuel` bounds the number of requests (the Python loop is unbounded,
so every theorem about a terminating run holds for all sufficiently large
fuel).  A full page (length at least `count = 200`) continues the loop at
the last bar's time plus the interval width. -/
def query_history (delta : ℕ) (server : ℕ → KlinePage) :
    ℕ → ℕ → List ℕ
  | 0, _ => []
  | fuel + 1, start_time =>
    match server start_time with
    | .httpError => []
    | .apiError => []
    | .result [] => []
    | .result (b :: bs) =>
      if (b :: bs).length < 200 then b :: bs
      else
        (b :: bs) ++
          query_history delta server fuel
            (generate_datetime_2 ((b :: bs).getLast (List.cons_ne_nil b bs)) + delta)

/-- A kline server consistent with the exchange contract: every page it
returns for a requested start time is the consecutive run of bars at the
interval width beginning exactly at that start time (possibly empty), or an
error. -/
def AlignedServer (delta : ℕ) (server : ℕ → KlinePage) : Prop :=
  ∀ s, (∃ n, server s = .result (List.range' s n delta)) ∨
    server s = .httpError ∨ server s = .apiError

/-! ### Request signing (C7): `BybitRestApi.sign`, `generate_signature`.

`sign` builds `param_str = str(timestamp) + self.key + str(recv_window) +
req_params` with `recv_window = 30_000` and sets the `X-BAPI-SIGN` header to
`generate_signature(self.secret, param_str)`, which is the hex digest of
HMAC-SHA256 over the UTF-8 bytes.  Strings are modelled as their byte
sequences (`List ℕ` with entries below 256); SHA-256 and HMAC are embedded
in full. -/

/-- Truncation to a 32-bit word. -/
def w32 (x : ℕ) : ℕ :=
  x % 4294967296

/-- Right rotation of a 32-bit word. -/
def rotr (n x : ℕ) : ℕ :=
  (x >>> n) ||| w32 (x <<< (32 - n))

/-- SHA-256 round constants. -/
def shaK : List ℕ :=
  [1116352408, 1899447441, 3049323471, 3921009573, 961987163,
   1508970993, 2453635748, 2870763221, 3624381080, 310598401,
   607225278, 1426881987, 1925078388, 2162078206, 2614888103,
   3248222580, 3835390401, 4022224774, 264347078, 604807628,
   770255983, 1249150122, 1555081692, 1996064986, 2554220882,
   2821834349, 2952996808, 3210313671, 3336571891, 3584528711,
   113926993, 338241895, 666307205, 773529912, 1294757372,
   1396182291, 1695183700, 1986661051, 2177026350, 2456956037,
   2730485921, 2820302411, 3259730800, 3345764771, 3516065817,
   3600352804, 4094571909, 275423344, 430227734, 506948616,
   659060556, 883997877, 958139571, 1322822218, 1537002063,
   1747873779, 1955562222, 2024104815, 2227730452, 2361852424,
   2428436474, 2756734187, 3204031479, 3329325298]

/-- The eight working words of the SHA-256 state. -/
structure Sha256State where
  w0 : ℕ
  w1 : ℕ
  w2 : ℕ
  w3 : ℕ
  w4 : ℕ
  w5 : ℕ
  w6 : ℕ
  w7 : ℕ
deriving DecidableEq, Repr

/-- SHA-256 initial hash value. -/
def shaH0 : Sha256State :=
  ⟨1779033703, 3144134277, 1013904242, 2773480762,
   1359893119, 2600822924, 528734635, 1541459225⟩

/-- Big-endian 8-byte encoding of a natural number. -/
def be8 (n : ℕ) : List ℕ :=
  [(n >>> 56) % 256, (n >>> 48) % 256, (n >>> 40) % 256, (n >>> 32) % 256,
   (n >>> 24) % 256, (n >>> 16) % 256, (n >>> 8) % 256, n % 256]

/-- Big-endian 4-byte encoding of a 32-bit word. -/
def be4 (n : ℕ) : List ℕ :=
  [(n >>> 24) % 256, (n >>> 16) % 256, (n >>> 8) % 256, n % 256]

/-- SHA-256 padding: append `0x80`, zeros up to 56 mod 64, then the bit
length as eight big-endian bytes. -/
def padMessage (msg : List ℕ) : List ℕ :=
  let zeroCount := (120 - ((msg.length + 1) % 64)) % 64
  msg ++ [128] ++ List.replicate zeroCount 0 ++ be8 (msg.length * 8)

/-- Group a byte list into big-endian 32-bit words. -/
def toWordsBE : List ℕ → List ℕ
  | b0 :: b1 :: b2 :: b3 :: rest =>
    (b0 * 16777216 + b1 * 65536 + b2 * 256 + b3) :: toWordsBE rest
  | _ => []

/-- Split a word list into chunks of 16 words. -/
def chunksOf16 : List ℕ → List (List ℕ)
  | [] => []
  | x :: xs =>
    (x :: xs).take 16 :: chunksOf16 ((x :: xs).drop 16)
termination_by l => l.length
decreasing_by
  simp only [List.length_drop, List.length_cons]
  omega

/-- SHA-256 message schedule: extend 16 words to 64. -/
def schedule (ws : List ℕ) : List ℕ :=
  (List.range 48).foldl
    (fun acc _ =>
      let n := acc.length
      let s0 :=
        let x := acc.getD (n - 15) 0
        rotr 7 x ^^^ rotr 18 x ^^^ (x >>> 3)
      let s1 :=
        let x := acc.getD (n - 2) 0
        rotr 17 x ^^^ rotr 19 x ^^^ (x >>> 10)
      acc ++ [w32 (acc.getD (n - 16) 0 + s0 + acc.getD (n - 7) 0 + s1)])
    ws

/-- One SHA-256 compression step over a 16-word chunk. -/
def compress (st : Sha256State) (chunk : List ℕ) : Sha256State :=
  let w := schedule chunk
  let rounds :=
    (List.range 64).foldl
      (fun r i =>
        let (a, b, c, d, e, f, g, h) := r
        let bigS1 := rotr 6 e ^^^ rotr 11 e ^^^ rotr 25 e
        let ch := (e &&& f) ^^^ ((4294967295 ^^^ e) &&& g)
        let t1 := w32 (h + bigS1 + ch + shaK.getD i 0 + w.getD i 0)
        let bigS0 := rotr 2 a ^^^ rotr 13 a ^^^ rotr 22 a
        let maj := (a &&& b) ^^^ (a &&& c) ^^^ (b &&& c)
        let t2 := w32 (bigS0 + maj)
        (w32 (t1 + t2), a, b, c, w32 (d + t1), e, f, g))
      (st.w0, st.w1, st.w2, st.w3, st.w4, st.w5, st.w6, st.w7)
  let (a, b, c, d, e, f, g, h) := rounds
  ⟨w32 (st.w0 + a), w32 (st.w1 + b), w32 (st.w2 + c), w32 (st.w3 + d),
   w32 (st.w4 + e), w32 (st.w5 + f), w32 (st.w6 + g), w32 (st.w7 + h)⟩

/-- SHA-256 digest of a byte sequence, as 32 bytes. -/
def sha256Bytes (msg : List ℕ) : List ℕ :=
  let fin := (chunksOf16 (toWordsBE (padMessage msg))).foldl compress shaH0
  be4 fin.w0 ++ be4 fin.w1 ++ be4 fin.w2 ++ be4 fin.w3 ++
    be4 fin.w4 ++ be4 fin.w5 ++ be4 fin.w6 ++ be4 fin.w7

/-- HMAC-SHA256 (`hmac.new(secret, msg, hashlib.sha256)`): block size 64
bytes, keys longer than one block are first hashed. -/
def hmac_sha256 (key msg : List ℕ) : List ℕ :=
  let k0 := if 64 < key.length then sha256Bytes key else key
  let kp := k0 ++ List.replicate (64 - k0.length) 0
  sha256Bytes ((kp.map (fun b => b ^^^ 92)) ++
    sha256Bytes ((kp.map (fun b => b ^^^ 54)) ++ msg))

/-- Byte of the lowercase hex character of a digit below 16. -/
def hexCharByte (d : ℕ) : ℕ :=
  if d < 10 then 48 + d else 87 + d

/-- Lowercase hex rendering of a byte sequence (the `hexdigest()` string,
as bytes). -/
def hexdigest (bytes : List ℕ) : List ℕ :=
  bytes.flatMap (fun b => [hexCharByte (b / 16), hexCharByte (b % 16)])

/-- `generate_signature`: hex digest of HMAC-SHA256 of the message under
the secret. -/
def generate_signature (secret param_str : List ℕ) : List ℕ :=
  hexdigest (hmac_sha256 secret param_str)

/-- ASCII decimal rendering of a natural number (`str(timestamp)`), as
bytes. -/
def decRepr (n : ℕ) : List ℕ :=
  if n = 0 then [48] else ((Nat.digits 10 n).reverse.map (fun d => 48 + d))

/-- The `recv_window` constant of `BybitRestApi.sign` (`30_000`). -/
def recv_window : ℕ := 30000

/-- The signed string of `BybitRestApi.sign`:
`str(timestamp) + self.key + str(recv_window) + req_params`. -/
def sign_param_str (key req_params : List ℕ) (timestamp : ℕ) : List ℕ :=
  decRepr timestamp ++ key ++ decRepr recv_window ++ req_params

/-- The `X-BAPI-SIGN` header value produced by `BybitRestApi.sign`. -/
def sign_signature (secret key req_params : List ℕ) (timestamp : ℕ) : List ℕ :=
  generate_signature secret (sign_param_str key req_params timestamp)

/-! ### Payload serialization (C8): `prepare_payload`.

For `GET` requests the parameters are rendered as
`"&".join(str(k) + "=" + str(v) for k, v in sorted(parameters.items()) if v
is not None)`.  For other methods `cast_values()` coerces the values of
`qty`, `price`, `triggerPrice`, `takeProfit`, `stopLoss` to strings and of
`positionIdx` to an integer, then the dict is rendered with `json.dumps`.
Parameter values are modelled by the types that actually flow into the
function in this module: strings, integers, booleans and `None`. -/

/-- A Python parameter value as used by this gateway. -/
inductive PValue where
  | vStr (s : String)
  | vInt (n : ℤ)
  | vBool (b : Bool)
  | vNone
deriving DecidableEq, Repr

/-- The `string_params` list of `cast_values`. -/
def string_params : List String :=
  ["qty", "price", "triggerPrice", "takeProfit", "stopLoss"]

/-- The `integer_params` list of `cast_values`. -/
def integer_params : List String :=
  ["positionIdx"]

/-- Python `str(value)` for the modelled value types. -/
def pyStr : PValue → String
  | .vStr s => s
  | .vInt n => toString n
  | .vBool b => if b then "True" else "False"
  | .vNone => "None"

/-- Python `int(value)` for the modelled value types (`int("abc")` and
`int(None)` raise, modelled as `none`). -/
def pyInt : PValue → Option ℤ
  | .vStr s => s.toInt?
  | .vInt n => some n
  | .vBool b => some (if b then 1 else 0)
  | .vNone => none

/-- One step of `cast_values`: coerce the value of a known numeric-typed
field, leave every other field untouched.  `none` models a raised
conversion error. -/
def cast_value (k : String) (v : PValue) : Option PValue :=
  if k ∈ string_params then
    match v with
    | .vStr s => some (.vStr s)
    | other => some (.vStr (pyStr other))
  else if k ∈ integer_params then
    match v with
    | .vInt n => some (.vInt n)
    | other => (pyInt other).map .vInt
  else some v

/-- `cast_values()`: coerce every parameter in place. -/
def cast_values (parameters : List (String × PValue)) :
    Option (List (String × PValue)) :=
  parameters.mapM (fun kv => (cast_value kv.1 kv.2).map (fun v => (kv.1, v)))

/-- JSON string escaping as performed by `json.dumps` (default
`ensure_ascii` only matters beyond ASCII; the control, quote and backslash
escapes are the ones exercised here). -/
def jsonEscapeChar (c : Char) : String :=
  if c = '\\' then "\\\\"
  else if c = '"' then "\\\""
  else if c = '\n' then "\\n"
  else if c = '\t' then "\\t"
  else if c = '\r' then "\\r"
  else if c.toNat < 32 then
    "\\u00" ++ String.mk [Char.ofNat (hexCharByte (c.toNat / 16)),
      Char.ofNat (hexCharByte (c.toNat % 16))]
  else String.mk [c]

/-- JSON rendering of a string literal. -/
def jsonString (s : String) : String :=
  "\"" ++ String.join (s.data.map jsonEscapeChar) ++ "\""

/-- JSON rendering of one value. -/
def jsonValue : PValue → String
  | .vStr s => jsonString s
  | .vInt n => toString n
  | .vBool b => if b then "true" else "false"
  | .vNone => "null"

/-- `json.dumps` with its default separators (`", "` and `": "`). -/
def json_dumps (parameters : List (String × PValue)) : String :=
  "\x7b" ++
    String.intercalate ", "
      (parameters.map (fun kv => jsonString kv.1 ++ ": " ++ jsonValue kv.2)) ++
    "\x7d"

/-- The key order used by `sorted(parameters.items())` (keys of a dict are
unique, so the comparison never reaches the values). -/
def keyLe (x y : String × PValue) : Bool :=
  x.1 ≤ y.1

/-- `prepare_payload`: sorted query string for `GET`, casted JSON body
otherwise.  `none` models an exception escaping `cast_values`. -/
def prepare_payload (method : String) (parameters : List (String × PValue)) :
    Option String :=
  if method = "GET" then
    some (String.intercalate "&"
      (((parameters.mergeSort keyLe).filter
          (fun kv => kv.2 ≠ PValue.vNone)).map
        (fun kv => kv.1 ++ "=" ++ pyStr kv.2)))
  else
    (cast_values parameters).map json_dumps

/-- Big-endian numeric value of a byte sequence (used to compare
digests). -/
def bytesBEtoNat (l : List ℕ) : ℕ :=
  l.foldl (fun a b => a * 256 + b) 0

/-- Decimal parser, a left inverse of `decRepr`. -/
def decVal (l : List ℕ) : ℕ :=
  Nat.ofDigits 10 ((l.map (fun b => b - 48)).reverse)

/-- Concrete demo secret (the bytes of `"secret"`). -/
def demoSecret : List ℕ := [115, 101, 99, 114, 101, 116]

/-- Concrete demo API key (the bytes of `"key"`). -/
def demoKey : List ℕ := [107, 101, 121]

/-- Concrete demo serialized request parameters (the bytes of
`"qty=1"`). -/
def demoParams : List ℕ := [113, 116, 121, 61, 49]

/-- A tiny aligned kline server used to instantiate the pagination
theorem:  every request returns the single bar at the requested start
time. -/
def alignedDemoServer : ℕ → KlinePage :=
  fun s => KlinePage.result (List.range' s 1 60)

/-! ## Theorems -/

/-- Claim C1, counterexample.  An order whose REST send callback carries a
nonzero `retCode` gets a REJECTED push; a stray later websocket push with
status `"New"` is translated and emitted as NOTTRADED — it is not dropped —
so the last emitted status is NOTTRADED, not the terminal REJECTED. -/
theorem claim_C1_counterexample :
    emittedStatuses [.restSendCallback 10001, .wsOrderPush "New"] =
      [VtStatus.REJECTED, VtStatus.NOTTRADED] ∧
    (emittedStatuses [.restSendCallback 10001, .wsOrderPush "New"]).getLast? ≠
      some VtStatus.REJECTED := by
  decide

/-- Claim C1, amended: the gateway performs no terminal-status filtering.
Every order push whose vendor status is in `STATUS_BYBIT2VT` appends its
translated status to the emitted stream unconditionally, whatever events
(including a REST rejection) came before, so the final emitted status is
that of the last event, not the first terminal one. -/
theorem claim_C1_amended (pre : List OrderEvent) (st : String) (s : VtStatus)
    (h : STATUS_BYBIT2VT.lookup st = some s) :
    emittedStatuses (pre ++ [.wsOrderPush st]) = emittedStatuses pre ++ [s] := by
  simp [emittedStatuses, orderEventEmits, private_on_order_status, h]

/-- Witness for `claim_C1_amended` at the counterexample trace. -/
theorem claim_C1_amended_witness :
    emittedStatuses ([.restSendCallback 10001] ++ [.wsOrderPush "New"]) =
      emittedStatuses [.restSendCallback 10001] ++ [VtStatus.NOTTRADED] :=
  claim_C1_amended [.restSendCallback 10001] "New" VtStatus.NOTTRADED (by decide)

/-- Claim C10: `subscribe` is idempotent per symbol.  When the symbol is
already in the subscription registry the method returns before touching any
state: the stored request list, the tick objects, the callback table and
the wire traffic are all unchanged. -/
theorem claim_C10 (symbol_category_map : List (String × String))
    (connectedCategories : List String) (st : PublicWsState)
    (symbol : String) (now : ℕ) (h : symbol ∈ st.subscribed) :
    ws_subscribe symbol_category_map connectedCategories st symbol now = st := by
  simp [ws_subscribe, h]

/-- Witness for `claim_C10`: a second subscribe for an already-registered
symbol leaves the full state (including the tick creation tag) intact. -/
theorem claim_C10_witness :
    ws_subscribe [("BTCUSDT", "linear")] ["linear"]
      ⟨["tickers.BTCUSDT"], [("BTCUSDT", 17)], ["BTCUSDT"], ["tickers.BTCUSDT"]⟩
      "BTCUSDT" 99 =
      ⟨["tickers.BTCUSDT"], [("BTCUSDT", 17)], ["BTCUSDT"], ["tickers.BTCUSDT"]⟩ :=
  claim_C10 [("BTCUSDT", "linear")] ["linear"] _ "BTCUSDT" 99 (by decide)

/-- Claim C9: the initial subscribe path sends the orderbook topic with
depth 200 (100 for the option category) while the reconnect-replay path of
`on_connected` sends it with depth 50 (25 for the option category); the
replay depth is strictly smaller. -/
theorem claim_C9 (symbol_category_map : List (String × String))
    (connectedCategories : List String) (st st' : PublicWsState)
    (symbol : String) (now : ℕ) (category : String)
    (hsub : symbol ∉ st.subscribed)
    (hcat : symbol_category_map.lookup symbol = some category)
    (hconn : category ∈ connectedCategories)
    (hreplay : st'.subscribed = [symbol]) :
    (ws_subscribe symbol_category_map connectedCategories st symbol now).sentPackets =
      st.sentPackets ++ [tickerTopic symbol,
        orderbookTopic (subscribeDepth category) symbol] ∧
    (ws_on_connected symbol_category_map st' category).sentPackets =
      st'.sentPackets ++ [tickerTopic symbol,
        orderbookTopic (onConnectedDepth category) symbol] ∧
    onConnectedDepth category < subscribeDepth category ∧
    subscribeDepth category = (if category = "option" then 100 else 200) ∧
    onConnectedDepth category = (if category = "option" then 25 else 50) := by
  refine ⟨?_, ?_, ?_, rfl, rfl⟩
  · simp [ws_subscribe, hsub, hcat, hconn, subscribe_topic]
  · simp [ws_on_connected, hreplay, hcat, subscribe_topic]
  · unfold onConnectedDepth subscribeDepth
    split <;> norm_num

/-- Witness for `claim_C9` on a linear symbol: initial depth 200, replay
depth 50. -/
theorem claim_C9_witness :
    (ws_subscribe [("BTCUSDT", "linear")] ["linear"] ⟨[], [], [], []⟩
        "BTCUSDT" 0).sentPackets =
      [] ++ ["tickers.BTCUSDT", orderbookTopic (subscribeDepth "linear") "BTCUSDT"] ∧
    (ws_on_connected [("BTCUSDT", "linear")] ⟨[], [], ["BTCUSDT"], []⟩
        "linear").sentPackets =
      [] ++ ["tickers.BTCUSDT", orderbookTopic (onConnectedDepth "linear") "BTCUSDT"] ∧
    onConnectedDepth "linear" < subscribeDepth "linear" ∧
    subscribeDepth "linear" = 200 ∧
    onConnectedDepth "linear" = 50 :=
  claim_C9 [("BTCUSDT", "linear")] ["linear"] ⟨[], [], [], []⟩
    ⟨[], [], ["BTCUSDT"], []⟩ "BTCUSDT" 0 "linear"
    (by decide) (by decide) (by decide) rfl

/-- Claim C5, counterexample.  A send-order request for a symbol with no
known category is not rejected locally: after the submitting
acknowledgement the request is transmitted to the exchange with an empty
`category` field (the network call is made). -/
theorem claim_C5_counterexample :
    send_order [] ⟨"XYZUSDT", .LIMIT, 1, 100, .NONE⟩ =
      ([VtStatus.SUBMITTING], SendOutcome.requested "") ∧
    SendOutcome.requested "" ≠ SendOutcome.raisedKeyError := by
  decide

/-- Claim C5, amended.  `send_order` always emits exactly the submitting
acknowledgement (never a rejection record); an unsupported order type makes
a `KeyError` escape after that acknowledgement and before any network call,
while a supported order type is always transmitted — an unmapped symbol is
not rejected, its request simply carries the empty category. -/
theorem claim_C5_amended (symbol_category_map : List (String × String))
    (req : OrderReq) :
    (send_order symbol_category_map req).1 = [VtStatus.SUBMITTING] ∧
    ((send_order symbol_category_map req).2 = SendOutcome.raisedKeyError ↔
      ORDER_TYPE_VT2BYBIT.lookup req.otype = none) ∧
    (ORDER_TYPE_VT2BYBIT.lookup req.otype ≠ none →
      (send_order symbol_category_map req).2 =
        SendOutcome.requested
          ((symbol_category_map.lookup req.symbol).getD "")) := by
  unfold send_order
  rcases h : ORDER_TYPE_VT2BYBIT.lookup req.otype with _ | bt <;>
    simp [h]

/-- Witness for `claim_C5_amended`: a STOP order raises (no record beyond
the submitting acknowledgement), and an unmapped-symbol LIMIT order is
transmitted with category `""`. -/
theorem claim_C5_amended_witness :
    (send_order [] ⟨"XYZUSDT", .STOP, 1, 100, .NONE⟩).2 =
      SendOutcome.raisedKeyError ∧
    (send_order [] ⟨"XYZUSDT", .LIMIT, 1, 100, .NONE⟩).2 =
      SendOutcome.requested "" :=
  ⟨(claim_C5_amended [] ⟨"XYZUSDT", .STOP, 1, 100, .NONE⟩).2.1.mpr (by decide),
   (claim_C5_amended [] ⟨"XYZUSDT", .LIMIT, 1, 100, .NONE⟩).2.2 (by decide)⟩

/-- Claim C4, counterexample.  A frame for an unregistered topic makes the
dispatcher raise a `KeyError` (on both the public and the private session);
it is not logged-and-dropped inside the handler. -/
theorem claim_C4_counterexample :
    public_on_packet ["tickers.BTCUSDT"] ⟨some "orderbook.50.BTCUSDT"⟩ =
      DispatchResult.keyError "orderbook.50.BTCUSDT" ∧
    DispatchResult.keyError "orderbook.50.BTCUSDT" ≠ DispatchResult.dropped ∧
    private_on_packet ["order", "execution", "position", "wallet"]
      ⟨some "greeks", none⟩ = DispatchResult.keyError "greeks" := by
  decide

/-- Claim C4, amended.  A topicless (or empty-topic) frame is dropped
silently; a frame for an unregistered topic raises a `KeyError` out of
`on_packet` (it is the enclosing websocket client, outside this module,
that catches and logs it); a registered topic invokes its handler; and the
dispatcher keeps no state, so each frame of a sequence is dispatched
independently of the frames before it. -/
theorem claim_C4_amended (callbacks : List String) (t : String)
    (p : PublicPacket) (frames : List PublicPacket) :
    public_on_packet callbacks ⟨none⟩ = DispatchResult.dropped ∧
    public_on_packet callbacks ⟨some ""⟩ = DispatchResult.dropped ∧
    (t ≠ "" → t ∉ callbacks →
      public_on_packet callbacks ⟨some t⟩ = DispatchResult.keyError t) ∧
    (t ≠ "" → t ∈ callbacks →
      public_on_packet callbacks ⟨some t⟩ = DispatchResult.handled t) ∧
    (t ∈ callbacks →
      private_on_packet callbacks ⟨some t, none⟩ = DispatchResult.handled t) ∧
    (t ∉ callbacks →
      private_on_packet callbacks ⟨some t, none⟩ = DispatchResult.keyError t) ∧
    public_process callbacks (p :: frames) =
      public_on_packet callbacks p :: public_process callbacks frames := by
  refine ⟨by simp [public_on_packet], by simp [public_on_packet],
    fun h1 h2 => ?_, fun h1 h2 => ?_, fun h => ?_, fun h => ?_, rfl⟩
  · simp [public_on_packet, h1, h2]
  · simp [public_on_packet, h1, h2]
  · simp [private_on_packet, h]
  · simp [private_on_packet, h]

/-- Witness for `claim_C4_amended`: after the unregistered-topic frame
raises, a later frame for a registered topic is still handled. -/
theorem claim_C4_amended_witness :
    public_on_packet ["tickers.BTCUSDT"] ⟨some "orderbook.50.BTCUSDT"⟩ =
      DispatchResult.keyError "orderbook.50.BTCUSDT" ∧
    public_on_packet ["tickers.BTCUSDT"] ⟨some "tickers.BTCUSDT"⟩ =
      DispatchResult.handled "tickers.BTCUSDT" :=
  ⟨(claim_C4_amended ["tickers.BTCUSDT"] "orderbook.50.BTCUSDT" ⟨none⟩ []).2.2.1
      (by decide) (by decide),
   (claim_C4_amended ["tickers.BTCUSDT"] "tickers.BTCUSDT" ⟨none⟩ []).2.2.2.1
      (by decide) (by decide)⟩

/-- Claim C2, counterexample.  A depth frame carrying the level
`(100, 0)` (a zero-size delta, which the exchange uses to signal removal)
is copied verbatim into the emitted tick: the emitted top-of-book holds a
price level with size 0 — the level is retained, not removed — so the
claimed invariant fails on the very first frame. -/
theorem claim_C2_counterexample :
    depthEmitted initialTickBook [⟨[(100, 0)], []⟩] =
      [on_depth initialTickBook ⟨[(100, 0)], []⟩] ∧
    ¬ WellFormedBook (on_depth initialTickBook ⟨[(100, 0)], []⟩) := by
  decide

/-- Index lemma for the slot-copy loop of `on_depth`. -/
theorem applyLevels_getD (data : List (ℚ × ℚ)) (slots : List (ℚ × ℚ))
    (start i : ℕ) (h : i < slots.length) :
    (applyLevels data start slots).getD i (0, 0) =
      if start + i < min 5 data.length then
        data.getD (start + i) (slots.getD i (0, 0))
      else slots.getD i (0, 0) := by
  induction slots generalizing start i with
  | nil => simp at h
  | cons x xs ih =>
    cases i with
    | zero => simp [applyLevels]
    | succ j =>
      have hj : j < xs.length := by
        simpa using Nat.lt_of_succ_lt_succ h
      have := ih (start + 1) j hj
      simp only [applyLevels, List.getD_cons_succ, this]
      have harith : start + 1 + j = start + (j + 1) := by omega
      rw [harith]

/-- The slot-copy loop never changes the number of slots. -/
theorem applyLevels_length (data : List (ℚ × ℚ)) (start : ℕ)
    (slots : List (ℚ × ℚ)) :
    (applyLevels data start slots).length = slots.length := by
  induction slots generalizing start with
  | nil => rfl
  | cons x xs ih => simp [applyLevels, ih]

/-- Claim C2, amended.  `on_depth` maintains no order book: each frame's
first `min(5, len)` bid and ask levels are written verbatim into the tick's
slots (zero sizes included, with no reordering and no removal), every slot
beyond the frame's length keeps its previous value, and the number of slots
is unchanged. -/
theorem claim_C2_amended (tick : TickBook) (frame : DepthFrame) (i : ℕ)
    (hb : i < tick.bids.length) (ha : i < tick.asks.length) :
    ((on_depth tick frame).bids.getD i (0, 0) =
      if i < min 5 frame.b.length then
        frame.b.getD i (tick.bids.getD i (0, 0))
      else tick.bids.getD i (0, 0)) ∧
    ((on_depth tick frame).asks.getD i (0, 0) =
      if i < min 5 frame.a.length then
        frame.a.getD i (tick.asks.getD i (0, 0))
      else tick.asks.getD i (0, 0)) ∧
    (on_depth tick frame).bids.length = tick.bids.length ∧
    (on_depth tick frame).asks.length = tick.asks.length := by
  refine ⟨?_, ?_, applyLevels_length _ _ _, applyLevels_length _ _ _⟩
  · have := applyLevels_getD frame.b tick.bids 0 i hb
    simpa using this
  · have := applyLevels_getD frame.a tick.asks 0 i ha
    simpa using this

/-- Witness for `claim_C2_amended`: the zero-size level of the
counterexample frame lands in slot 0 of the emitted tick unchanged. -/
theorem claim_C2_amended_witness :
    ((on_depth initialTickBook ⟨[(100, 0)], []⟩).bids.getD 0 (0, 0) =
      if 0 < min 5 [((100 : ℚ), (0 : ℚ))].length then
        [((100 : ℚ), (0 : ℚ))].getD 0 (initialTickBook.bids.getD 0 (0, 0))
      else initialTickBook.bids.getD 0 (0, 0)) ∧
    ((on_depth initialTickBook ⟨[(100, 0)], []⟩).asks.getD 0 (0, 0) =
      if 0 < min 5 ([] : List (ℚ × ℚ)).length then
        ([] : List (ℚ × ℚ)).getD 0 (initialTickBook.asks.getD 0 (0, 0))
      else initialTickBook.asks.getD 0 (0, 0)) ∧
    (on_depth initialTickBook ⟨[(100, 0)], []⟩).bids.length =
      initialTickBook.bids.length ∧
    (on_depth initialTickBook ⟨[(100, 0)], []⟩).asks.length =
      initialTickBook.asks.length :=
  claim_C2_amended initialTickBook ⟨[(100, 0)], []⟩ 0 (by decide) (by decide)


/-- A successful association-list lookup comes from a member pair. -/
theorem lookup_mem {β : Type} {l : List (String × β)} {a : String} {b : β}
    (h : l.lookup a = some b) : (a, b) ∈ l := by
  induction l with
  | nil => simp at h
  | cons kv rest ih =>
    obtain ⟨k, w⟩ := kv
    rw [List.lookup_cons] at h
    cases hbk : a == k with
    | false =>
      simp only [hbk] at h
      exact List.mem_cons_of_mem _ (ih h)
    | true =>
      simp only [hbk, Option.some.injEq] at h
      have hak := eq_of_beq hbk
      subst hak
      subst h
      exact List.mem_cons_self _ _

/-- Lookup of a key that is absent from the association list. -/
theorem lookup_eq_none_of_not_mem {β : Type} {l : List (String × β)}
    {a : String} (h : a ∉ l.map Prod.fst) : l.lookup a = none := by
  induction l with
  | nil => rfl
  | cons kv rest ih =>
    obtain ⟨k, w⟩ := kv
    simp only [List.map_cons, List.mem_cons, not_or] at h
    rw [List.lookup_cons]
    have hbk : (a == k) = false := beq_false_of_ne h.1
    simp only [hbk]
    exact ih h.2

/-- Setting one tick attribute leaves every differently-named attribute
unchanged. -/
theorem getTickField_set_ne (t : TickFields) (nameSet name : String) (v : ℚ)
    (h : nameSet ≠ name) :
    getTickField (setTickField t nameSet v) name = getTickField t name := by
  unfold setTickField
  split_ifs with h1 h2 h3 h4 h5 h6 <;>
    (try rfl) <;>
    · subst_vars
      unfold getTickField
      split_ifs <;>
        first
          | rfl
          | (exact absurd rfl h)
          | (subst_vars; exact absurd rfl h)

/-- Setting one of the six mapped tick attributes makes that attribute read
back the written value. -/
theorem getTickField_set_self (t : TickFields) (v : ℚ) (name : String)
    (h : name = "last_price" ∨ name = "high_price" ∨ name = "low_price" ∨
      name = "volume" ∨ name = "turnover" ∨ name = "open_interest") :
    getTickField (setTickField t name v) name = v := by
  rcases h with rfl | rfl | rfl | rfl | rfl | rfl <;>
    simp [setTickField, getTickField]

/-- The field dictionary maps distinct vendor keys to distinct attribute
names, so an update to one vendor key cannot clobber another key's
attribute. -/
theorem tick_name_ne (k bybit name vt : String)
    (hk : TICK_FIELD_BYBIT2VT.lookup k = some name)
    (hmem : (bybit, vt) ∈ TICK_FIELD_BYBIT2VT)
    (hne : k ≠ bybit) : name ≠ vt := by
  have hkm : (k, name) ∈ TICK_FIELD_BYBIT2VT := lookup_mem hk
  have hinj : ∀ p ∈ TICK_FIELD_BYBIT2VT, ∀ q ∈ TICK_FIELD_BYBIT2VT,
      p.2 = q.2 → p.1 = q.1 := by decide
  intro heq
  exact hne (hinj _ hkm _ hmem heq)

/-- A mapped field that is absent from a pushed update keeps its prior
value through `on_ticker`. -/
theorem on_ticker_absent (data : List (String × ℚ)) (tick : TickFields)
    (bybit vt : String)
    (hmem : (bybit, vt) ∈ TICK_FIELD_BYBIT2VT)
    (habs : data.lookup bybit = none) :
    getTickField (on_ticker tick data) vt = getTickField tick vt := by
  induction data generalizing tick with
  | nil => rfl
  | cons kv rest ih =>
    obtain ⟨k, w⟩ := kv
    rw [List.lookup_cons] at habs
    cases hbk : bybit == k with
    | true => simp [hbk] at habs
    | false =>
      simp only [hbk] at habs
      have hkne : k ≠ bybit := (ne_of_beq_false hbk).symm
      have hstep : on_ticker tick ((k, w) :: rest) =
          on_ticker
            (match TICK_FIELD_BYBIT2VT.lookup k with
             | some name => setTickField tick name w
             | none => tick) rest := rfl
      rw [hstep]
      cases hk : TICK_FIELD_BYBIT2VT.lookup k with
      | none => simp only [hk]; exact ih tick habs
      | some name =>
        simp only [hk]
        rw [ih (setTickField tick name w) habs]
        exact getTickField_set_ne tick name vt w
          (tick_name_ne k bybit name vt hk hmem hkne)

/-- A mapped field present in a pushed update (with the dict's unique keys)
is overwritten by `on_ticker` with the pushed value. -/
theorem on_ticker_present (data : List (String × ℚ)) (tick : TickFields)
    (bybit vt : String) (v : ℚ)
    (hmem : (bybit, vt) ∈ TICK_FIELD_BYBIT2VT)
    (hnd : (data.map Prod.fst).Nodup)
    (hlk : data.lookup bybit = some v) :
    getTickField (on_ticker tick data) vt = v := by
  induction data generalizing tick with
  | nil => simp at hlk
  | cons kv rest ih =>
    obtain ⟨k, w⟩ := kv
    rw [List.lookup_cons] at hlk
    simp only [List.map_cons, List.nodup_cons] at hnd
    have hstep : on_ticker tick ((k, w) :: rest) =
        on_ticker
          (match TICK_FIELD_BYBIT2VT.lookup k with
           | some name => setTickField tick name w
           | none => tick) rest := rfl
    cases hbk : bybit == k with
    | false =>
      simp only [hbk] at hlk
      rw [hstep]
      cases hk : TICK_FIELD_BYBIT2VT.lookup k with
      | none => simp only [hk]; exact ih _ hnd.2 hlk
      | some name => simp only [hk]; exact ih _ hnd.2 hlk
    | true =>
      simp only [hbk, Option.some.injEq] at hlk
      have hkb : bybit = k := eq_of_beq hbk
      subst hkb
      subst hlk
      have hlkmap : ∀ p ∈ TICK_FIELD_BYBIT2VT,
          TICK_FIELD_BYBIT2VT.lookup p.1 = some p.2 := by decide
      have hk : TICK_FIELD_BYBIT2VT.lookup bybit = some vt := hlkmap _ hmem
      rw [hstep]
      simp only [hk]
      have hrest : rest.lookup bybit = none :=
        lookup_eq_none_of_not_mem hnd.1
      rw [on_ticker_absent rest (setTickField tick vt w) bybit vt hmem hrest]
      have hnames : ∀ p ∈ TICK_FIELD_BYBIT2VT,
          p.2 = "last_price" ∨ p.2 = "high_price" ∨ p.2 = "low_price" ∨
            p.2 = "volume" ∨ p.2 = "turnover" ∨ p.2 = "open_interest" := by
        decide
      exact getTickField_set_self tick w vt (hnames _ hmem)

/-- Claim C3: `on_ticker` applies true partial updates.  A mapped field
present in the pushed data (dict keys are unique) is overwritten with the
pushed value; a mapped field absent from the data keeps its prior value; a
field name outside `TICK_FIELD_BYBIT2VT` is skipped entirely, with no
error.  The tick resulting from the whole update is the record emitted via
`gateway.on_tick(copy(tick))`. -/
theorem claim_C3 (tick : TickFields) (data : List (String × ℚ))
    (bybit vt k : String) (v w : ℚ) (rest : List (String × ℚ)) :
    ((bybit, vt) ∈ TICK_FIELD_BYBIT2VT → data.lookup bybit = none →
      getTickField (on_ticker tick data) vt = getTickField tick vt) ∧
    ((bybit, vt) ∈ TICK_FIELD_BYBIT2VT → (data.map Prod.fst).Nodup →
      data.lookup bybit = some v →
      getTickField (on_ticker tick data) vt = v) ∧
    (TICK_FIELD_BYBIT2VT.lookup k = none →
      on_ticker tick ((k, w) :: rest) = on_ticker tick rest) :=
  ⟨fun hmem habs => on_ticker_absent data tick bybit vt hmem habs,
   fun hmem hnd hlk => on_ticker_present data tick bybit vt v hmem hnd hlk,
   fun hk => by
    have hstep : on_ticker tick ((k, w) :: rest) =
        on_ticker
          (match TICK_FIELD_BYBIT2VT.lookup k with
           | some name => setTickField tick name w
           | none => tick) rest := rfl
    rw [hstep]
    simp only [hk]⟩

/-- Witness for `claim_C3`: the spec's own example.  Applying
`{lastPrice: 100}` and then `{volume24h: 5}` to a fresh tick leaves last
price 100 and volume 5 — the field not mentioned by the second update is
preserved. -/
theorem claim_C3_witness :
    getTickField
      (on_ticker (on_ticker ⟨0, 0, 0, 0, 0, 0⟩ [("lastPrice", (100 : ℚ))])
        [("volume24h", (5 : ℚ))]) "last_price" = 100 ∧
    getTickField
      (on_ticker (on_ticker ⟨0, 0, 0, 0, 0, 0⟩ [("lastPrice", (100 : ℚ))])
        [("volume24h", (5 : ℚ))]) "volume" = 5 :=
  ⟨((claim_C3 (on_ticker ⟨0, 0, 0, 0, 0, 0⟩ [("lastPrice", (100 : ℚ))])
        [("volume24h", (5 : ℚ))] "lastPrice" "last_price" "x" 0 0 []).1
      (by decide) (by decide)).trans
    ((claim_C3 ⟨0, 0, 0, 0, 0, 0⟩ [("lastPrice", (100 : ℚ))]
        "lastPrice" "last_price" "x" 100 0 []).2.1
      (by decide) (by decide) (by decide)),
   (claim_C3 (on_ticker ⟨0, 0, 0, 0, 0, 0⟩ [("lastPrice", (100 : ℚ))])
        [("volume24h", (5 : ℚ))] "volume24h" "volume" "x" 5 0 []).2.1
      (by decide) (by decide) (by decide)⟩

/-- Last element of a nonempty stepped range. -/
theorem range'_getLast (s m delta : ℕ)
    (h : List.range' s (m + 1) delta ≠ []) :
    (List.range' s (m + 1) delta).getLast h = s + delta * m := by
  have h1 : (List.range' s (m + 1) delta).getLast? = some (s + delta * m) := by
    rw [List.range'_concat]
    exact List.getLast?_concat _
  rw [List.getLast?_eq_getLast _ h] at h1
  exact Option.some.inj h1

/-- Against an aligned server, `query_history` always returns one
consecutive run of bars starting at the requested start time. -/
theorem query_history_aligned (delta : ℕ) (server : ℕ → KlinePage)
    (hal : AlignedServer delta server) :
    ∀ fuel start : ℕ, ∃ n,
      query_history delta server fuel start = List.range' start n delta := by
  intro fuel
  induction fuel with
  | zero => exact fun start => ⟨0, rfl⟩
  | succ f ih =>
    intro start
    rcases hal start with ⟨n, hs⟩ | hs | hs
    · cases n with
      | zero => exact ⟨0, by simp [query_history, hs]⟩
      | succ m =>
        rw [List.range'_succ] at hs
        by_cases hlen : (start :: List.range' (start + delta) m delta).length < 200
        · refine ⟨m + 1, ?_⟩
          simp only [query_history, hs, if_pos hlen]
          rw [List.range'_succ]
        · obtain ⟨n', hn'⟩ := ih (start + delta * (m + 1))
          refine ⟨n' + (m + 1), ?_⟩
          simp only [query_history, hs, if_neg hlen]
          have hlast : (start :: List.range' (start + delta) m delta).getLast
              (List.cons_ne_nil _ _) = start + delta * m := by
            have h1 : (start :: List.range' (start + delta) m delta).getLast? =
                some (start + delta * m) := by
              rw [← List.range'_succ, List.range'_concat]
              exact List.getLast?_concat _
            rw [List.getLast?_eq_getLast _ (List.cons_ne_nil _ _)] at h1
            exact Option.some.inj h1
          rw [hlast]
          have hcursor : generate_datetime_2 (start + delta * m) + delta =
              start + delta * (m + 1) := by
            unfold generate_datetime_2
            ring
          rw [hcursor, hn', ← List.range'_succ]
          exact List.range'_append start (m + 1) n' delta
    · exact ⟨0, by simp [query_history, hs]⟩
    · exact ⟨0, by simp [query_history, hs]⟩

/-- Claim C6: `query_history` paginates by advancing the start cursor to
one interval width past the last bar of each full page, terminates exactly
when a page is shorter than the page size 200 or is empty or erroring, and
— against a server whose pages are consecutive runs starting at the
requested cursor — returns one gapless, strictly increasing run of bars at
the interval width starting at the requested start time. -/
theorem claim_C6 (delta : ℕ) (server : ℕ → KlinePage) (fuel start : ℕ)
    (hal : AlignedServer delta server) :
    (query_history delta server fuel start =
      List.range' start (query_history delta server fuel start).length delta) ∧
    (∀ b bs, server start = KlinePage.result (b :: bs) →
      (b :: bs).length < 200 →
      query_history delta server (fuel + 1) start = b :: bs) ∧
    (∀ b bs, server start = KlinePage.result (b :: bs) →
      200 ≤ (b :: bs).length →
      query_history delta server (fuel + 1) start =
        (b :: bs) ++ query_history delta server fuel
          (generate_datetime_2 ((b :: bs).getLast (List.cons_ne_nil b bs)) +
            delta)) ∧
    ((server start = KlinePage.httpError ∨ server start = KlinePage.apiError ∨
        server start = KlinePage.result []) →
      query_history delta server (fuel + 1) start = []) := by
  refine ⟨?_, ?_, ?_, ?_⟩
  · obtain ⟨n, hn⟩ := query_history_aligned delta server hal fuel start
    rw [hn, List.length_range']
  · intro b bs hs hlen
    simp only [query_history, hs]
    rw [if_pos hlen]
  · intro b bs hs hlen
    simp only [query_history, hs]
    rw [if_neg (Nat.not_lt.mpr hlen)]
  · rintro (hs | hs | hs) <;> simp [query_history, hs]

/-- Witness for `claim_C6` on the demo server: a three-request run from
start 0 is the consecutive run beginning at 0. -/
theorem claim_C6_witness :
    query_history 60 alignedDemoServer 3 0 =
      List.range' 0 (query_history 60 alignedDemoServer 3 0).length 60 :=
  (claim_C6 60 alignedDemoServer 3 0 (fun _ => Or.inl ⟨1, rfl⟩)).1

/-- The big-endian fold is the little-endian digit valuation of the
reversed byte list. -/
theorem foldl_byte_acc (l : List ℕ) :
    ∀ a : ℕ, l.foldl (fun a b => a * 256 + b) a =
      a * 256 ^ l.length + Nat.ofDigits 256 l.reverse := by
  induction l with
  | nil => intro a; simp [Nat.ofDigits]
  | cons x xs ih =>
    intro a
    simp only [List.foldl_cons, List.length_cons, List.reverse_cons]
    rw [ih (a * 256 + x), Nat.ofDigits_append]
    simp only [List.length_reverse, Nat.ofDigits_singleton]
    ring

/-- `bytesBEtoNat` as a digit valuation. -/
theorem bytesBEtoNat_eq (l : List ℕ) :
    bytesBEtoNat l = Nat.ofDigits 256 l.reverse := by
  have := foldl_byte_acc l 0
  simpa [bytesBEtoNat] using this

/-- Digit valuation in base 256 is injective on equal-length lists of
bytes. -/
theorem ofDigits_256_inj : ∀ l1 l2 : List ℕ, l1.length = l2.length →
    (∀ x ∈ l1, x < 256) → (∀ x ∈ l2, x < 256) →
    Nat.ofDigits 256 l1 = Nat.ofDigits 256 l2 → l1 = l2 := by
  intro l1
  induction l1 with
  | nil =>
    intro l2 hlen _ _ _
    cases l2 with
    | nil => rfl
    | cons d t => simp at hlen
  | cons d1 t1 ih =>
    intro l2 hlen hb1 hb2 heq
    cases l2 with
    | nil => simp at hlen
    | cons d2 t2 =>
      rw [Nat.ofDigits_cons, Nat.ofDigits_cons] at heq
      try simp only [Nat.cast_id] at heq
      have hd1 : d1 < 256 := hb1 _ (List.mem_cons_self _ _)
      have hd2 : d2 < 256 := hb2 _ (List.mem_cons_self _ _)
      have hd : d1 = d2 ∧ Nat.ofDigits 256 t1 = Nat.ofDigits 256 t2 := by
        omega
      obtain ⟨hdd, ht⟩ := hd
      subst hdd
      have hteq : t1 = t2 :=
        ih t2 (by simpa using hlen)
          (fun x hx => hb1 x (List.mem_cons_of_mem _ hx))
          (fun x hx => hb2 x (List.mem_cons_of_mem _ hx)) ht
      rw [hteq]

/-- Value bound of the big-endian byte fold. -/
theorem bytesBEtoNat_lt (l : List ℕ) (hb : ∀ x ∈ l, x < 256) :
    bytesBEtoNat l < 256 ^ l.length := by
  rw [bytesBEtoNat_eq]
  have hrev : ∀ x ∈ l.reverse, x < 256 := fun x hx =>
    hb x (List.mem_reverse.mp hx)
  have := Nat.ofDigits_lt_base_pow_length (b := 256) (by norm_num) hrev
  simpa using this

/-- Every byte of a big-endian word encoding is below 256. -/
theorem mem_be4_lt (n : ℕ) : ∀ x ∈ be4 n, x < 256 := by
  intro x hx
  simp only [be4, List.mem_cons, List.not_mem_nil, or_false] at hx
  rcases hx with rfl | rfl | rfl | rfl <;> omega

/-- A SHA-256 digest has 32 bytes. -/
theorem sha256Bytes_length (msg : List ℕ) : (sha256Bytes msg).length = 32 := by
  simp [sha256Bytes, be4]

/-- Every byte of a SHA-256 digest is below 256. -/
theorem mem_sha256Bytes_lt (msg : List ℕ) :
    ∀ x ∈ sha256Bytes msg, x < 256 := by
  intro x hx
  simp only [sha256Bytes, List.mem_append] at hx
  rcases hx with ((((((hx | hx) | hx) | hx) | hx) | hx) | hx) | hx <;>
    exact mem_be4_lt _ _ hx

/-- An HMAC-SHA256 tag has 32 bytes. -/
theorem hmac_sha256_length (key msg : List ℕ) :
    (hmac_sha256 key msg).length = 32 := by
  simp only [hmac_sha256]
  exact sha256Bytes_length _

/-- Every byte of an HMAC-SHA256 tag is below 256. -/
theorem mem_hmac_sha256_lt (key msg : List ℕ) :
    ∀ x ∈ hmac_sha256 key msg, x < 256 := by
  simp only [hmac_sha256]
  exact mem_sha256Bytes_lt _

/-- Claim C7, counterexample (of the second half of the claim).  The
digest space is finite while the timestamps are not, so some two distinct
timestamps necessarily produce the same signature for the same parameters,
credentials and receive window: signatures do not differ for *every* pair
of distinct timestamps. -/
theorem claim_C7_counterexample :
    ¬ (∀ t1 t2 : ℕ, t1 ≠ t2 →
        sign_signature demoSecret demoKey demoParams t1 ≠
          sign_signature demoSecret demoKey demoParams t2) := by
  intro hinj
  let f : ℕ → Fin (2 ^ 256) := fun t =>
    ⟨bytesBEtoNat (hmac_sha256 demoSecret
        (sign_param_str demoKey demoParams t)), by
      have hlt := bytesBEtoNat_lt _
        (mem_hmac_sha256_lt demoSecret (sign_param_str demoKey demoParams t))
      rw [hmac_sha256_length] at hlt
      calc bytesBEtoNat (hmac_sha256 demoSecret
            (sign_param_str demoKey demoParams t)) < 256 ^ 32 := hlt
        _ = 2 ^ 256 := by norm_num⟩
  obtain ⟨t1, t2, hne, hfeq⟩ := Finite.exists_ne_map_eq_of_infinite f
  have hval : bytesBEtoNat (hmac_sha256 demoSecret
        (sign_param_str demoKey demoParams t1)) =
      bytesBEtoNat (hmac_sha256 demoSecret
        (sign_param_str demoKey demoParams t2)) :=
    congrArg Fin.val hfeq
  rw [bytesBEtoNat_eq, bytesBEtoNat_eq] at hval
  have hrev : (hmac_sha256 demoSecret
        (sign_param_str demoKey demoParams t1)).reverse =
      (hmac_sha256 demoSecret
        (sign_param_str demoKey demoParams t2)).reverse :=
    ofDigits_256_inj _ _
      (by rw [List.length_reverse, List.length_reverse,
        hmac_sha256_length, hmac_sha256_length])
      (fun x hx => mem_hmac_sha256_lt _ _ x (List.mem_reverse.mp hx))
      (fun x hx => mem_hmac_sha256_lt _ _ x (List.mem_reverse.mp hx))
      hval
  have hbytes := List.reverse_injective hrev
  exact hinj t1 t2 hne (congrArg hexdigest hbytes)

/-- `decVal` undoes `decRepr`. -/
theorem decVal_decRepr (n : ℕ) : decVal (decRepr n) = n := by
  by_cases h : n = 0
  · subst h
    simp [decVal, decRepr, Nat.ofDigits]
  · simp only [decRepr, h, if_false, decVal, List.map_reverse, List.map_map]
    have hcomp : ((fun b => b - 48) ∘ fun d => 48 + d) = id := by
      funext d
      simp
    rw [hcomp]
    simp [Nat.ofDigits_digits]

/-- The decimal rendering of timestamps is injective. -/
theorem decRepr_injective : Function.Injective decRepr :=
  Function.LeftInverse.injective decVal_decRepr

/-- Claim C7, amended.  The `X-BAPI-SIGN` value is exactly the hex digest
of HMAC-SHA256, under the secret key, of the concatenation
`str(timestamp) + api_key + str(recv_window) + serialized payload`; and
for two different timestamps (same parameters, credentials and receive
window) the two signed strings always differ — so the signatures differ
whenever the keyed hash does not collide on them, and a fixed signature is
never recomputed from a stale timestamp. -/
theorem claim_C7_amended (secret key payload : List ℕ) (t t' : ℕ)
    (hne : t ≠ t') :
    sign_signature secret key payload t =
      hexdigest (hmac_sha256 secret
        (decRepr t ++ key ++ decRepr recv_window ++ payload)) ∧
    sign_param_str key payload t ≠ sign_param_str key payload t' := by
  refine ⟨rfl, fun h => hne ?_⟩
  have h0 : ((decRepr t ++ key) ++ decRepr recv_window) ++ payload =
      ((decRepr t' ++ key) ++ decRepr recv_window) ++ payload := h
  exact decRepr_injective
    (List.append_cancel_right
      (List.append_cancel_right (List.append_cancel_right h0)))

/-- Witness for `claim_C7_amended` at timestamps 1 and 2 with the demo
credentials. -/
theorem claim_C7_amended_witness :
    sign_signature demoSecret demoKey demoParams 1 =
      hexdigest (hmac_sha256 demoSecret
        (decRepr 1 ++ demoKey ++ decRepr recv_window ++ demoParams)) ∧
    sign_param_str demoKey demoParams 1 ≠ sign_param_str demoKey demoParams 2 :=
  claim_C7_amended demoSecret demoKey demoParams 1 2 (by decide)

/-- The sort key comparison is transitive. -/
theorem keyLe_trans (a b c : String × PValue) (h1 : keyLe a b)
    (h2 : keyLe b c) : keyLe a c := by
  simp only [keyLe, decide_eq_true_eq] at *
  exact le_trans h1 h2

/-- The sort key comparison is total. -/
theorem keyLe_total (a b : String × PValue) : keyLe a b || keyLe b a := by
  simp only [keyLe, Bool.or_eq_true, decide_eq_true_eq]
  exact le_total a.1 b.1

/-- Two permutations of the same parameter dict (unique keys), both sorted
by key, are equal: the sorted query order is canonical. -/
theorem eq_of_perm_sorted_nodupkeys :
    ∀ l1 l2 : List (String × PValue), List.Perm l1 l2 →
      (l1.map Prod.fst).Nodup →
      l1.Pairwise (fun a b => keyLe a b = true) →
      l2.Pairwise (fun a b => keyLe a b = true) → l1 = l2 := by
  intro l1
  induction l1 with
  | nil =>
    intro l2 hp _ _ _
    exact (List.Perm.eq_nil hp.symm).symm
  | cons a t1 ih =>
    intro l2 hp hnd hs1 hs2
    cases l2 with
    | nil =>
      have := hp.eq_nil
      simp at this
    | cons b t2 =>
      simp only [List.map_cons, List.nodup_cons] at hnd
      have hab : a = b := by
        have ha2 : a ∈ b :: t2 := hp.mem_iff.mp (List.mem_cons_self a t1)
        have hb1 : b ∈ a :: t1 := hp.symm.mem_iff.mp (List.mem_cons_self b t2)
        rcases List.mem_cons.mp ha2 with h1 | h1
        · exact h1
        rcases List.mem_cons.mp hb1 with h2 | h2
        · exact h2.symm
        have hle1 : keyLe a b = true := (List.pairwise_cons.mp hs1).1 b h2
        have hle2 : keyLe b a = true := (List.pairwise_cons.mp hs2).1 a h1
        have hk : a.1 = b.1 :=
          le_antisymm (by simpa [keyLe] using hle1) (by simpa [keyLe] using hle2)
        exfalso
        apply hnd.1
        rw [hk]
        exact List.mem_map_of_mem Prod.fst h2
      subst hab
      have hpt : List.Perm t1 t2 := hp.cons_inv
      rw [ih t2 hpt hnd.2 (List.Pairwise.of_cons hs1) (List.Pairwise.of_cons hs2)]

/-- Characterization of a successful `cast_values` run: the keys are kept
in order and every value is exactly the coercion of the original. -/
theorem cast_values_forall2 :
    ∀ params casted : List (String × PValue), cast_values params = some casted →
      List.Forall₂ (fun kv ckv : String × PValue =>
        ckv.1 = kv.1 ∧ cast_value kv.1 kv.2 = some ckv.2) params casted := by
  intro params
  induction params with
  | nil =>
    intro casted h
    simp only [cast_values, List.mapM_nil, Option.pure_def,
      Option.some.injEq] at h
    subst h
    exact List.Forall₂.nil
  | cons kv rest ih =>
    intro casted h
    simp only [cast_values, List.mapM_cons] at h
    cases hcv : cast_value kv.1 kv.2 with
    | none => rw [hcv] at h; simp at h
    | some v =>
      rw [hcv] at h
      cases hrest : rest.mapM
          (fun kv => (cast_value kv.1 kv.2).map (fun v => (kv.1, v))) with
      | none => rw [hrest] at h; simp at h
      | some cs =>
        rw [hrest] at h
        have hc : (kv.1, v) :: cs = casted := by simpa using h
        subst hc
        exact List.Forall₂.cons ⟨rfl, hcv⟩
          (ih cs (by simpa [cast_values] using hrest))

/-- Shape of a coerced value: numeric string fields become strings, index
fields become integers. -/
theorem cast_value_shape (k : String) (v v' : PValue)
    (h : cast_value k v = some v') :
    (k ∈ string_params → ∃ s, v' = PValue.vStr s) ∧
    (k ∈ integer_params → ∃ n, v' = PValue.vInt n) := by
  constructor
  · intro hk
    cases v with
    | vStr s =>
      simp only [cast_value, hk, if_true] at h
      exact ⟨s, by simpa using h.symm⟩
    | vInt n =>
      simp only [cast_value, hk, if_true] at h
      exact ⟨pyStr (.vInt n), by simpa using h.symm⟩
    | vBool b =>
      simp only [cast_value, hk, if_true] at h
      exact ⟨pyStr (.vBool b), by simpa using h.symm⟩
    | vNone =>
      simp only [cast_value, hk, if_true] at h
      exact ⟨pyStr .vNone, by simpa using h.symm⟩
  · intro hk
    have hks : k ∉ string_params := by
      simp only [integer_params, List.mem_singleton] at hk
      subst hk
      decide
    cases v with
    | vInt n =>
      simp only [cast_value, hks, hk, if_true, if_false] at h
      exact ⟨n, by simpa using h.symm⟩
    | vStr s =>
      simp only [cast_value, hks, hk, if_true, if_false, pyInt] at h
      cases hs : s.toInt? with
      | none => rw [hs] at h; simp at h
      | some n => rw [hs] at h; exact ⟨n, by simpa using h.symm⟩
    | vBool b =>
      simp only [cast_value, hks, hk, if_true, if_false, pyInt] at h
      exact ⟨if b then 1 else 0, by simpa using h.symm⟩
    | vNone =>
      simp only [cast_value, hks, hk, if_true, if_false, pyInt] at h
      simp at h

/-- Right-membership projection of a `Forall₂` relation. -/
theorem forall2_mem_right {α β : Type} {R : α → β → Prop} :
    ∀ {l1 : List α} {l2 : List β}, List.Forall₂ R l1 l2 →
      ∀ b ∈ l2, ∃ a ∈ l1, R a b := by
  intro l1 l2 h
  induction h with
  | nil => intro b hb; simp at hb
  | cons hr ht ih =>
    intro b hb
    rcases List.mem_cons.mp hb with rfl | hb
    · exact ⟨_, List.mem_cons_self _ _, hr⟩
    · obtain ⟨a, ha, har⟩ := ih b hb
      exact ⟨a, List.mem_cons_of_mem _ ha, har⟩

/-- Claim C8: for `GET` requests the payload is the canonical sorted
`key=value` join — it is invariant under permutation of the parameter dict
and drops `None`-valued parameters; for non-`GET` requests the values of
`qty`, `price`, `triggerPrice`, `takeProfit` and `stopLoss` are coerced to
decimal strings and `positionIdx` to an integer, and the payload is the
JSON encoding of exactly the coerced parameters. -/
theorem claim_C8 (params params' : List (String × PValue)) (k : String)
    (casted : List (String × PValue)) :
    (List.Perm params params' → (params.map Prod.fst).Nodup →
      prepare_payload "GET" params = prepare_payload "GET" params') ∧
    (((params ++ [(k, PValue.vNone)]).map Prod.fst).Nodup →
      prepare_payload "GET" (params ++ [(k, PValue.vNone)]) =
        prepare_payload "GET" params) ∧
    (cast_values params = some casted →
      prepare_payload "POST" params = some (json_dumps casted) ∧
      List.Forall₂ (fun kv ckv : String × PValue =>
        ckv.1 = kv.1 ∧ cast_value kv.1 kv.2 = some ckv.2) params casted ∧
      ∀ p ∈ casted, (p.1 ∈ string_params → ∃ s, p.2 = PValue.vStr s) ∧
        (p.1 ∈ integer_params → ∃ n, p.2 = PValue.vInt n)) := by
  refine ⟨fun hperm hnd => ?_, fun hnd => ?_, fun hcv => ?_⟩
  · have hsort_eq : params.mergeSort keyLe = params'.mergeSort keyLe := by
      apply eq_of_perm_sorted_nodupkeys
      · exact (List.mergeSort_perm params keyLe).trans
          (hperm.trans (List.mergeSort_perm params' keyLe).symm)
      · exact (((List.mergeSort_perm params keyLe).map Prod.fst).nodup_iff).mpr hnd
      · exact List.sorted_mergeSort keyLe_trans keyLe_total params
      · exact List.sorted_mergeSort keyLe_trans keyLe_total params'
    simp [prepare_payload, hsort_eq]
  · have hfeq : ((params ++ [(k, PValue.vNone)]).mergeSort keyLe).filter
        (fun kv => kv.2 ≠ PValue.vNone) =
        (params.mergeSort keyLe).filter (fun kv => kv.2 ≠ PValue.vNone) := by
      apply eq_of_perm_sorted_nodupkeys
      · have h1 := (List.mergeSort_perm (params ++ [(k, PValue.vNone)])
          keyLe).filter (fun kv => decide (kv.2 ≠ PValue.vNone))
        have h2 : (params ++ [(k, PValue.vNone)]).filter
            (fun kv => decide (kv.2 ≠ PValue.vNone)) =
            params.filter (fun kv => decide (kv.2 ≠ PValue.vNone)) := by
          simp [List.filter_append]
        have h3 := ((List.mergeSort_perm params keyLe).filter
          (fun kv => decide (kv.2 ≠ PValue.vNone))).symm
        exact h1.trans (by rw [h2]; exact h3)
      · have hs1keys :
            (((params ++ [(k, PValue.vNone)]).mergeSort keyLe).map
              Prod.fst).Nodup :=
          (((List.mergeSort_perm _ keyLe).map Prod.fst).nodup_iff).mpr hnd
        exact hs1keys.sublist
          ((List.filter_sublist _).map Prod.fst)
      · exact (List.sorted_mergeSort keyLe_trans keyLe_total _).sublist
          (List.filter_sublist _)
      · exact (List.sorted_mergeSort keyLe_trans keyLe_total _).sublist
          (List.filter_sublist _)
    simp only [ne_eq, decide_not] at hfeq
    simp [prepare_payload, hfeq]
  · refine ⟨?_, cast_values_forall2 params casted hcv, ?_⟩
    · simp only [prepare_payload]
      rw [if_neg (by decide : ¬("POST" = "GET")), hcv]
      rfl
    · intro p hp
      obtain ⟨kv, _, hk, hv⟩ := forall2_mem_right
        (cast_values_forall2 params casted hcv) p hp
      have hshape := cast_value_shape kv.1 kv.2 p.2 hv
      rw [← hk] at hshape
      exact hshape

/-- Witness for `claim_C8`: a shuffled dict yields the same sorted `GET`
payload, and a `POST` body is the JSON encoding of the coerced
parameters. -/
theorem claim_C8_witness :
    prepare_payload "GET"
        [("b", PValue.vInt 1), ("a", PValue.vStr "x"), ("c", PValue.vNone)] =
      prepare_payload "GET"
        [("a", PValue.vStr "x"), ("c", PValue.vNone), ("b", PValue.vInt 1)] ∧
    prepare_payload "POST"
        [("qty", PValue.vStr "2"), ("positionIdx", PValue.vInt 1)] =
      some (json_dumps [("qty", PValue.vStr "2"),
        ("positionIdx", PValue.vInt 1)]) :=
  ⟨(claim_C8 [("b", PValue.vInt 1), ("a", PValue.vStr "x"),
      ("c", PValue.vNone)]
      [("a", PValue.vStr "x"), ("c", PValue.vNone), ("b", PValue.vInt 1)]
      "k" []).1 (by decide) (by decide),
   ((claim_C8 [("qty", PValue.vStr "2"), ("positionIdx", PValue.vInt 1)]
      [] "k"
      [("qty", PValue.vStr "2"), ("positionIdx", PValue.vInt 1)]).2.2
      (by rfl)).1⟩
